import Mathlib

/-!
Verification of the viadot Vid Club extraction engine
(`src/viadot/sources/vidclub.py`, with `velux_club.py` as the superseded
sibling implementation).

Shallow embedding conventions:
* Calendar dates are modelled as day ordinals (`Nat`, days since 1970-01-01);
  lexicographic comparison of zero-padded ISO date strings in the source
  coincides with the numeric order of ordinals.  `strftime` is modelled by
  `dateStr`.
* JSON payloads are modelled by `Resp` (dict / bare list / scalar); rows are
  association lists from field names to string values.
* pandas DataFrames are modelled by `DF`: column labels, row index labels and
  a rectangular cell matrix.  `pd.DataFrame(list-of-dicts)` is `mkDF`,
  `DataFrame.transpose` is `DF.transpose`, `pd.concat(axis=0)` is
  `DF.concatRows`, `drop_duplicates` is `DF.dropDuplicates` (first occurrence
  kept, NaN compares equal, as in pandas).
* Python exceptions become `Except PyErr`; raising a keyword-argument
  `TypeError` at a call site is modelled by `kwCall`, which checks the passed
  keyword names against the parameter list of the callee.
* Network transport is an external collaborator: the first response is given
  by a `transport : String -> Resp` function, and subsequent pages of the
  pagination loop are consumed from an input list (running out of pages
  models a transport failure).  Issued request URLs are returned alongside
  results so that "no request was issued" is statable.
-/

/-- Python exceptions and signals surfaced by the extraction engine. -/
inductive PyErr
  | validationError (msg : String)
  | typeError
  | keyError (k : String)
  | indexError
  | valueError
  | skipSignal
  | emptyResultError
  | transportError
  | nonTermination
deriving DecidableEq

/-- One decoded JSON row: a mapping from field names to (stringified) values. -/
abbrev Row := List (String × String)

/-- A DataFrame cell: missing (NaN), a scalar value, or a nested object. -/
inductive Cell
  | na
  | s (v : String)
  | obj (r : Row)
deriving DecidableEq

/-- A value sitting under a key of a JSON object: a scalar or a list of rows. -/
inductive Entry
  | value (v : String)
  | rows (rs : List Row)
deriving DecidableEq

/-- A decoded JSON response payload: an object, a bare list of rows, or a
scalar (anything that is neither a dict nor a list). -/
inductive Resp
  | dict (entries : List (String × Entry))
  | list (rows : List Row)
  | scalar (v : String)
deriving DecidableEq

/-- First-match association-list lookup (Python `d[k]` on small dicts). -/
def alookup {α : Type} : List (String × α) → String → Option α
  | [], _ => none
  | (k, v) :: r, t => if k = t then some v else alookup r t

/-- `strftime("%Y-%m-%d")` on a day ordinal, at the model level. -/
def dateStr (d : Nat) : String := toString d

/-- Day ordinal of 2022-03-22, the historical floor of the API data. -/
def floorDate : Nat := 19073

/-- pandas DataFrame: column labels, row index labels, rectangular cells. -/
structure DF where
  cols : List String
  idx : List String
  cells : List (List Cell)
deriving DecidableEq

/-- The empty DataFrame `pd.DataFrame()`. -/
def emptyDF : DF := ⟨[], [], []⟩

/-- Ordered union of the keys of a list of rows (column discovery order of
`pd.DataFrame(list-of-dicts)`). -/
def rowKeys (acc : List String) : List Row → List String
  | [] => acc
  | r :: rs =>
      rowKeys (r.foldl (fun a p => if a.contains p.1 then a else a ++ [p.1]) acc) rs

/-- `pd.DataFrame(rows)` for a list of row mappings: columns are the ordered
union of keys, the index is a fresh RangeIndex, missing fields render as NaN. -/
def mkDF (rows : List Row) : DF :=
  let cols := rowKeys [] rows
  ⟨cols, (List.range rows.length).map toString,
   rows.map (fun r => cols.map (fun c =>
     match alookup r c with
     | some v => Cell.s v
     | none => Cell.na))⟩

/-- Transpose of a rectangular cell matrix with `n` columns. -/
def transposeCells (n : Nat) (rows : List (List Cell)) : List (List Cell) :=
  (List.range n).map (fun j => rows.map (fun r => r.getD j Cell.na))

/-- `DataFrame.transpose` / `.T`: labels swap roles, the matrix transposes. -/
def DF.transpose (d : DF) : DF :=
  ⟨d.idx, d.cols, transposeCells d.cols.length d.cells⟩

/-- Position of a column label in a label list. -/
def idxOfCol : List String → String → Option Nat
  | [], _ => none
  | c :: cs, t => if c = t then some 0 else (idxOfCol cs t).map (· + 1)

/-- Re-expresses a row over a target column list, filling absent columns
with NaN (column alignment of `pd.concat`). -/
def alignRow (allCols cols : List String) (row : List Cell) : List Cell :=
  allCols.map (fun c =>
    match idxOfCol cols c with
    | some i => row.getD i Cell.na
    | none => Cell.na)

/-- `pd.concat((a, b), axis=0)`: rows stacked; when the column sets differ,
the outer union of columns is taken (first frame order first) and missing
cells become NaN. -/
def DF.concatRows (a b : DF) : DF :=
  if a.cols = b.cols then ⟨a.cols, a.idx ++ b.idx, a.cells ++ b.cells⟩
  else
    let cs := a.cols ++ b.cols.filter (fun c => !a.cols.contains c)
    ⟨cs, a.idx ++ b.idx,
     a.cells.map (alignRow cs a.cols) ++ b.cells.map (alignRow cs b.cols)⟩

/-- `pd.concat(dfs, axis=0)` over a list of frames. -/
def concatList : List DF → DF
  | [] => emptyDF
  | d :: rest => rest.foldl DF.concatRows d

/-- `ignore_index=True`: replace the index by a fresh RangeIndex. -/
def reindexRows (d : DF) : DF :=
  ⟨d.cols, (List.range d.cells.length).map toString, d.cells⟩

/-- Keeps the first occurrence of every distinct cell row (with its index
label), dropping later repetitions; `seen` accumulates rows already kept. -/
def dedupRowsAux (seen : List (List Cell)) :
    List (String × List Cell) → List (String × List Cell)
  | [] => []
  | (i, r) :: rest =>
      if r ∈ seen then dedupRowsAux seen rest
      else (i, r) :: dedupRowsAux (r :: seen) rest

/-- `DataFrame.drop_duplicates()`: removes exact duplicate rows (all fields
equal, NaN comparing equal), keeping first occurrences. -/
def DF.dropDuplicates (d : DF) : DF :=
  let kept := dedupRowsAux [] (d.idx.zip d.cells)
  ⟨d.cols, kept.map Prod.fst, kept.map Prod.snd⟩

/-- `df.empty` in pandas: some axis has length zero. -/
def dfEmpty (d : DF) : Bool := d.cells.isEmpty || d.cols.isEmpty

/-- Does `needle` occur at the head of `hay`? -/
def startsWithList : List Char → List Char → Bool
  | [], _ => true
  | _ :: _, [] => false
  | a :: as, b :: bs => a == b && startsWithList as bs

/-- Does `needle` occur contiguously inside `hay`? -/
def subListB (needle : List Char) : List Char → Bool
  | [] => startsWithList needle []
  | c :: t => startsWithList needle (c :: t) || subListB needle t

/-- Python string containment `needle in hay`. -/
def hasSubstr (needle hay : String) : Bool :=
  subListB needle.toList hay.toList

/-!  ## Interval Partitioner (`Vidclub.intervals`, vidclub.py lines 99-144) -/

/-- The `while period_start < end_date` loop of `Vidclub.intervals`, with
explicit fuel: `none` models non-termination (possible when the step is 0).
Each iteration emits `(period_start, min (period_start + interval) end_date)`
and restarts from that right endpoint. -/
def intervalsLoopF (endD iv : Nat) : Nat → Nat → Option (List (Nat × Nat))
  | fuel, ps =>
    if ps < endD then
      match fuel with
      | 0 => none
      | f + 1 =>
          (intervalsLoopF endD iv f (min (ps + iv) endD)).map
            (fun l => (ps, min (ps + iv) endD) :: l)
    else some []

/-- `Vidclub.intervals(from_date, to_date, days_interval)` on day ordinals:
validates `to >= from`, walks forward in steps of `days_interval` clamping to
`to_date`, and falls back to the single window `(from, to)` when the loop
emitted nothing (the degenerate `from == to` case). -/
def intervals (fromD toD iv : Nat) : Except PyErr (List (Nat × Nat)) :=
  if toD < fromD then
    .error (.validationError "to_date cannot be earlier than from_date.")
  else
    match intervalsLoopF toD iv (toD - fromD) fromD with
    | none => .error .nonTermination
    | some l =>
        .ok (match l with
             | [] => [(fromD, toD)]
             | _ => l)

/-!  ## Query Builder (`Vidclub.build_query`, vidclub.py lines 65-97)

Note the source tests the survey case with the Python expression
`source in "survey"`, which is substring containment on strings, not
membership in a one-element list. -/

/-- `Vidclub.build_query`: paginated sources get from/to/region/limit
parameters; the survey branch fires for any substring of the word survey;
anything else raises `ValidationError`. -/
def buildQuery (baseUrl : String) (fromD toD ipp : Nat)
    (source region : String) : Except PyErr String :=
  if source = "jobs" ∨ source = "product" ∨ source = "company" then
    .ok (baseUrl ++ source ++ "?from=" ++ dateStr fromD ++ "&to=" ++ dateStr toD
         ++ "&region=" ++ region ++ "&limit=" ++ toString ipp)
  else if hasSubstr source "survey" then
    .ok (baseUrl ++ source ++ "?language=en&type=question")
  else
    .error (.validationError "Pick one these sources: jobs, product, company, survey")

/-- The keyword parameters accepted by `Vidclub.build_query`
(`from_date`, `to_date`, `items_per_page`, `source`, `region`). -/
def buildQueryParams : List String :=
  ["from_date", "to_date", "items_per_page", "source", "region"]

/-- The keyword arguments `Vidclub.check_connection` passes to `build_query`
(vidclub.py lines 184-191); note `api_url`, which `build_query` does not
accept. -/
def checkConnArgs : List String :=
  ["source", "from_date", "to_date", "api_url", "items_per_page", "region"]

/-- Python keyword-call semantics: binding the passed keyword names against
the parameter list of the callee raises `TypeError` when an unexpected
keyword is present, before the body runs. -/
def kwCall {α : Type} (params passed : List String)
    (run : Unit → Except PyErr α) : Except PyErr α :=
  if passed.all (fun k => params.contains k) then run () else .error .typeError

/-!  ## Connection step (`Vidclub.check_connection`, vidclub.py lines 146-198) -/

/-- `Vidclub.check_connection`: validates the window against the historical
floor and ordering, then calls `build_query` (with the keyword arguments the
source actually passes) and would issue the resulting URL as the first
request.  Returns the decoded first response and the URL, paired with the
list of request URLs issued. -/
def checkConnection (transport : String → Resp) (credUrl : String)
    (source : String) (fromD toD ipp : Nat) (region : String)
    (url : Option String) : Except PyErr (Resp × String) × List String :=
  if fromD < floorDate then
    (.error (.validationError "from_date cannot be earlier than 2022-03-22."), [])
  else if toD < fromD then
    (.error (.validationError "to_date cannot be earlier than from_date."), [])
  else
    match kwCall buildQueryParams checkConnArgs
        (fun _ => buildQuery (url.getD credUrl) fromD toD ipp source region) with
    | .error e => (.error e, [])
    | .ok firstUrl => (.ok (transport firstUrl, firstUrl), [firstUrl])

/-!  ## Pagination Walker (`Vidclub.get_response`, vidclub.py lines 200-277) -/

/-- `keys_list` of the first decoded response (vidclub.py lines 241-246):
keys of a dict, keys of the first element of a bare list (IndexError when the
list is empty), empty for anything else. -/
def keysOf : Resp → Except PyErr (List String)
  | .dict es => .ok (es.map Prod.fst)
  | .list rows =>
      match rows with
      | [] => .error .indexError
      | r :: _ => .ok (r.map Prod.fst)
  | .scalar _ => .ok []

/-- `response["data"]` followed by `pd.DataFrame(...)`: a dict yields its
data rows (KeyError when absent, ValueError when scalar), subscripting a
list or scalar by a string raises TypeError. -/
def getData : Resp → Except PyErr (List Row)
  | .dict es =>
      match alookup es "data" with
      | some (.rows rs) => .ok rs
      | some (.value _) => .error .valueError
      | none => .error (.keyError "data")
  | .list _ => .error .typeError
  | .scalar _ => .error .typeError

/-- Rendering of a JSON value inside an f-string. -/
def entryToStr : Entry → String
  | .value v => v
  | .rows _ => "list"

/-- `response["next"]` of the previous response, rendered into the next URL. -/
def nextToken : Resp → Except PyErr String
  | .dict es =>
      match alookup es "next" with
      | some e => .ok (entryToStr e)
      | none => .error (.keyError "next")
  | .list _ => .error .typeError
  | .scalar _ => .error .typeError

/-- One page fetched by the pagination loop: the URL issued and the page
DataFrame appended (after the product transposition, when it applies). -/
structure PageFetch where
  url : String
  df : DF
deriving DecidableEq

/-- `pd.DataFrame(response)` of the unpaginated branch (vidclub.py line 275):
a bare list of rows becomes a row table; a dict without list-valued entries
raises ValueError (all-scalar dict), otherwise list-valued entries of equal
length become columns with scalars broadcast; a scalar raises ValueError. -/
def dfOfResp : Resp → Except PyErr DF
  | .list rows => .ok (mkDF rows)
  | .dict es =>
      match es.filterMap (fun p =>
        match p.2 with
        | .rows rs => some rs.length
        | .value _ => none) with
      | [] => .error .valueError
      | n :: rest =>
          if rest.all (fun m => m == n) then
            .ok ⟨es.map Prod.fst, (List.range n).map toString,
                 (List.range n).map (fun i => es.map (fun p =>
                   match p.2 with
                   | .value v => Cell.s v
                   | .rows rs =>
                       match rs.get? i with
                       | some r => Cell.obj r
                       | none => Cell.na))⟩
          else .error .valueError
  | .scalar _ => .error .valueError

/-- The `while length == items_per_page` loop of `Vidclub.get_response`
(vidclub.py lines 258-273).  `ind` is the cursor-style flag fixed from the
first response; `resp` is the most recent decoded response, `length` the row
count of the most recent page DataFrame, `page` the page counter.  The next
URL is formed from the previous response (KeyError possible) before the
fetch; subsequent responses are consumed in order from `pages`, running out
models a transport failure.  Returns the fetched pages in order. -/
def walkLoop (source : String) (ipp : Nat) (ind : Bool) (firstUrl : String)
    (resp : Resp) (length page : Nat) (pages : List Resp) :
    Except PyErr (List PageFetch) :=
  if length == ipp then
    match (if ind then (nextToken resp).map (fun t => (firstUrl ++ "&next=" ++ t, page))
           else .ok (firstUrl ++ "&page=" ++ toString (page + 1), page + 1) :
           Except PyErr (String × Nat)) with
    | .error e => .error e
    | .ok (url, page2) =>
        match pages with
        | [] => .error .transportError
        | newResp :: rest =>
            match getData newResp with
            | .error e => .error e
            | .ok rows =>
                let dfPage := if source = "product" then (mkDF rows).transpose
                              else mkDF rows
                match walkLoop source ipp ind firstUrl newResp
                    dfPage.cells.length page2 rest with
                | .error e => .error e
                | .ok l => .ok (⟨url, dfPage⟩ :: l)
  else .ok []

/-- The outcome of the walker on one sub-window: the DataFrame built from the
first response and the pages fetched by the loop afterwards. -/
structure WalkResult where
  firstBatch : DF
  pageFetches : List PageFetch
deriving DecidableEq

/-- The incremental `pd.concat` of `get_response`: the final DataFrame is the
first batch with every fetched page appended in order. -/
def finalDF (w : WalkResult) : DF :=
  w.pageFetches.foldl (fun d pf => d.concatRows pf.df) w.firstBatch

/-- Total number of HTTP fetches of a walker run (the first request plus the
loop fetches). -/
def fetchCount (w : WalkResult) : Nat := 1 + w.pageFetches.length

/-- The response-shape driven part of `Vidclub.get_response` (vidclub.py
lines 241-277), as a function of the first decoded response: computes
`keys_list`, fixes the cursor flag `ind` from it, and either walks the
paginated `data` branch or takes the whole payload as the one batch. -/
def getResponseCore (source : String) (ipp : Nat) (firstUrl : String)
    (firstResp : Resp) (pages : List Resp) : Except PyErr WalkResult :=
  match keysOf firstResp with
  | .error e => .error e
  | .ok keysList =>
      let ind := keysList.contains "next"
      if keysList.contains "data" then
        match getData firstResp with
        | .error e => .error e
        | .ok rows =>
            let df := mkDF rows
            match walkLoop source ipp ind firstUrl firstResp
                df.cells.length 1 pages with
            | .error e => .error e
            | .ok l => .ok ⟨df, l⟩
      else
        match dfOfResp firstResp with
        | .error e => .error e
        | .ok df => .ok ⟨df, []⟩

/-- The cursor-versus-page classification of `get_response` (vidclub.py lines
248-251): a function of the inspected keys of the first response alone. -/
def classifyCursor (r : Resp) : Except PyErr Bool :=
  (keysOf r).map (fun ks => ks.contains "next")

/-!  ## Result Aggregator and Facade (`Vidclub.total_load`, vidclub.py
lines 279-337) -/

/-- The aggregation tail of `Vidclub.total_load` (lines 309-332): when more
than one per-window frame was collected they are concatenated with a fresh
index, a single frame is taken as is, and exact duplicate rows are dropped. -/
def totalLoadAggregate (dfs : List DF) : DF :=
  let df := if dfs.length > 1 then reindexRows (concatList dfs)
            else dfs.headD emptyDF
  df.dropDuplicates

/-- `Vidclub.get_response` end to end (vidclub.py lines 200-277): source
validation, default end date, the connection step, then the walker on the
first response.  Returns the walk outcome paired with the issued URLs. -/
def getResponseRun (transport : String → Resp) (pages : List Resp)
    (credUrl : String) (source : String) (fromD : Nat) (toD : Option Nat)
    (today ipp : Nat) (region : String) :
    Except PyErr WalkResult × List String :=
  if !(["jobs", "product", "company", "survey"].contains source) then
    (.error (.validationError "The source has to be: jobs, product, company or survey"), [])
  else
    let toDr := toD.getD today
    match checkConnection transport credUrl source fromD toDr ipp region none with
    | (.error e, log) => (.error e, log)
    | (.ok (resp, firstUrl), log) =>
        match getResponseCore source ipp firstUrl resp pages with
        | .error e => (.error e, log)
        | .ok w => (.ok w, log ++ w.pageFetches.map PageFetch.url)

/-- The per-window loop of `Vidclub.total_load` (lines 309-323): windows are
processed strictly in sequence; the first failing window fails the whole
call.  Each window receives a fresh copy of the subsequent-pages feed. -/
def totalLoadWindows (transport : String → Resp) (pages : List Resp)
    (credUrl : String) (source : String) (today ipp : Nat) (region : String) :
    List (Nat × Nat) → Except PyErr (List DF) × List String
  | [] => (.ok [], [])
  | (s, e) :: rest =>
      match getResponseRun transport pages credUrl source s (some e)
          today ipp region with
      | (.error err, log) => (.error err, log)
      | (.ok w, log) =>
          match totalLoadWindows transport pages credUrl source today ipp
              region rest with
          | (.error err, log2) => (.error err, log ++ log2)
          | (.ok dfs, log2) => (.ok (finalDF w :: dfs), log ++ log2)

/-- `Vidclub.total_load` (vidclub.py lines 279-337): partition the window,
walk each sub-window in partition order, concatenate and deduplicate. -/
def totalLoadRun (transport : String → Resp) (pages : List Resp)
    (credUrl : String) (source : String) (fromD : Nat) (toD : Option Nat)
    (today ipp : Nat) (region : String) (daysInterval : Nat) :
    Except PyErr DF × List String :=
  match intervals fromD (toD.getD today) daysInterval with
  | .error e => (.error e, [])
  | .ok ws =>
      match totalLoadWindows transport pages credUrl source today ipp
          region ws with
      | (.error e, log) => (.error e, log)
      | (.ok dfs, log) => (.ok (totalLoadAggregate dfs), log)

/-!  ## Empty-Result Policy (`Vidclub.to_df`, vidclub.py lines 340-370) -/

/-- Modelled from the spec: the base Source class's empty-result handler
(`Source._handle_if_empty`), whose implementation is not part of the sources
here.  `fail` signals `EmptyResultError`, `skip` raises the SKIP signal,
`warn` emits a warning-level notice (a side effect not modelled) and
returns. -/
def handleIfEmpty : String → Except PyErr Unit
  | "fail" => .error .emptyResultError
  | "skip" => .error .skipSignal
  | _ => .ok ()

/-- The empty-result tail of `Vidclub.to_df` (vidclub.py lines 364-370): on
an empty frame the handler runs inside a try block that catches only the
SKIP signal and then returns a fresh empty DataFrame; any other signal
propagates; otherwise the frame is returned unchanged. -/
def toDfPolicy (df : DF) (ifEmpty : String) : Except PyErr DF :=
  if dfEmpty df then
    match handleIfEmpty ifEmpty with
    | .error .skipSignal => .ok emptyDF
    | .error e => .error e
    | .ok _ => .ok df
  else .ok df

/-!  ## Concrete scenario inputs used by claim witnesses -/

/-- The first decoded response of the C2 counterexample run: a paginated
product payload whose single data row is short of the page size. -/
def c2rows : List Row := [[("a", "1"), ("b", "2")]]

/-- The C2 counterexample first response: a dict with a `data` key. -/
def c2firstResp : Resp := .dict [("data", .rows c2rows)]

/-- A synthetic page content of `n` distinct rows. -/
def rowsOfSize (n : Nat) : List Row :=
  (List.range n).map (fun i => [("id", toString i)])

/-- A page-number style paginated response carrying `n` data rows (a dict
with a `data` key and no `next` key). -/
def mkPage (n : Nat) : Resp := .dict [("data", .rows (rowsOfSize n))]


/-!  ## Claim theorems -/

/-- C1: for every supported paginated source and valid date window, the
connection step does NOT issue the first request: binding the keyword
arguments of the `build_query` call (which include `api_url`, a parameter
`Vidclub.build_query` does not accept) raises `TypeError` first, so the
call fails after validation and before any request is issued (the issued
URL list is empty). -/
theorem c1_init_raises_before_request (transport : String → Resp)
    (credUrl : String) (source : String) (fromD toD ipp : Nat)
    (region : String)
    (hs : source = "jobs" ∨ source = "product" ∨ source = "company")
    (hf : floorDate ≤ fromD) (ht : fromD ≤ toD) :
    checkConnection transport credUrl source fromD toD ipp region none =
      (.error .typeError, []) := by
  simp only [checkConnection]
  rw [if_neg (Nat.not_lt.mpr hf), if_neg (Nat.not_lt.mpr ht)]
  rfl

/-- Witness for C1 at a concrete valid input. -/
theorem c1_witness :
    checkConnection (fun _ => Resp.scalar "") "u/" "jobs" floorDate
        (floorDate + 1) 100 "all" none = (.error .typeError, []) :=
  c1_init_raises_before_request (fun _ => Resp.scalar "") "u/" "jobs"
    floorDate (floorDate + 1) 100 "all" (Or.inl rfl) (Nat.le_refl _)
    (Nat.le_succ _)

/-- C8 failing input: `build_query` accepts the unsupported identifier
`sur` (a substring of the word survey, accepted by the Python expression
`source in "survey"`) and returns a survey-style URL instead of raising
the unsupported-endpoint `ValidationError` promised by its docstring. -/
theorem c8_substring_source_accepted :
    buildQuery "u/" floorDate (floorDate + 1) 10 "sur" "all" =
      .ok "u/sur?language=en&type=question" := by
  rfl

/-- C6: the Empty-Result Policy per mode: `fail` on a zero-row frame
signals `EmptyResultError` and returns no frame, `skip` on a zero-row
frame returns a fresh empty frame without signalling, and a non-empty
frame passes through unchanged under every mode. -/
theorem c6_empty_policy :
    (∀ df : DF, dfEmpty df = true →
      toDfPolicy df "fail" = .error .emptyResultError) ∧
    (∀ df : DF, dfEmpty df = true → toDfPolicy df "skip" = .ok emptyDF) ∧
    (∀ (df : DF) (mode : String), dfEmpty df = false →
      toDfPolicy df mode = .ok df) := by
  refine ⟨fun df h => ?_, fun df h => ?_, fun df mode h => ?_⟩ <;>
    simp [toDfPolicy, h, handleIfEmpty]

/-- Witness for C6 at concrete frames. -/
theorem c6_witness :
    toDfPolicy emptyDF "fail" = .error .emptyResultError ∧
    toDfPolicy emptyDF "skip" = .ok emptyDF ∧
    toDfPolicy ⟨["a"], ["0"], [[Cell.s "1"]]⟩ "warn" =
      .ok ⟨["a"], ["0"], [[Cell.s "1"]]⟩ :=
  ⟨c6_empty_policy.1 emptyDF rfl, c6_empty_policy.2.1 emptyDF rfl,
   c6_empty_policy.2.2 ⟨["a"], ["0"], [[Cell.s "1"]]⟩ "warn" rfl⟩

/-- C10: a bare-list first response must be non-empty: on the empty list
the key inspection raises `IndexError` (out-of-range access on the first
element), and every successful walk of a bare-list response yields a
final frame with at least one row, so an empty table is never produced
from a bare-list response. -/
theorem c10_bare_list_nonempty (source : String) (ipp : Nat) (u : String)
    (pages : List Resp) :
    getResponseCore source ipp u (.list []) pages = .error .indexError ∧
    ∀ (rows : List Row) (w : WalkResult),
      getResponseCore source ipp u (.list rows) pages = .ok w →
      (finalDF w).cells ≠ [] := by
  constructor
  · rfl
  · intro rows w h
    match rows with
    | [] => simp [getResponseCore, keysOf] at h
    | r :: rs =>
      simp only [getResponseCore, keysOf] at h
      by_cases hd : (r.map Prod.fst).contains "data"
      · rw [if_pos hd] at h
        simp only [getData] at h
        exact absurd h (by simp)
      · simp only [hd, Bool.false_eq_true, if_false, dfOfResp] at h
        cases h
        simp [finalDF, mkDF]

/-- Witness for C10 at a concrete one-row bare-list response. -/
theorem c10_witness :
    (finalDF ⟨mkDF [[("a", "1")]], []⟩).cells ≠ [] :=
  (c10_bare_list_nonempty "jobs" 10 "u" []).2 [[("a", "1")]]
    ⟨mkDF [[("a", "1")]], []⟩ rfl

/-- C2 counterexample: on a concrete product run the first decoded batch
is taken as the Record Batch untransposed, not transposed as the claim
states for every batch including the first. -/
theorem c2_counterexample :
    getResponseCore "product" 2 "u" c2firstResp [] = .ok ⟨mkDF c2rows, []⟩ ∧
    (⟨mkDF c2rows, []⟩ : WalkResult) ≠ ⟨(mkDF c2rows).transpose, []⟩ := by
  exact ⟨rfl, by decide⟩

/-- Unfolding of one productive iteration of the intervals loop. -/
theorem intervalsLoopF_succ (endD iv f ps : Nat) (h : ps < endD) :
    intervalsLoopF endD iv (f + 1) ps =
      (intervalsLoopF endD iv f (min (ps + iv) endD)).map
        (fun l => (ps, min (ps + iv) endD) :: l) := by
  rw [intervalsLoopF.eq_def]
  simp [h]

/-- The intervals loop exits immediately once the cursor reaches the end. -/
theorem intervalsLoopF_stop (endD iv fuel ps : Nat) (h : ¬ ps < endD) :
    intervalsLoopF endD iv fuel ps = some [] := by
  rw [intervalsLoopF.eq_def]
  simp [h]

/-- Specification of the intervals loop: with a positive step and enough
fuel it terminates, every emitted window sits inside the remaining span
with width at most the step, the emitted windows jointly cover every day
of the remaining span, and at least one window is emitted when the span
is non-degenerate. -/
theorem intervalsLoopF_spec (endD iv : Nat) (hiv : 0 < iv) :
    ∀ fuel ps, endD - ps ≤ fuel →
      ∃ l, intervalsLoopF endD iv fuel ps = some l ∧
        (∀ p ∈ l, ps ≤ p.1 ∧ p.1 < p.2 ∧ p.2 ≤ endD ∧ p.2 - p.1 ≤ iv) ∧
        (∀ d, ps ≤ d → d ≤ endD → ps < endD → ∃ p ∈ l, p.1 ≤ d ∧ d ≤ p.2) ∧
        (ps < endD → l ≠ []) := by
  intro fuel
  induction fuel with
  | zero =>
    intro ps hle
    have h : ¬ ps < endD := by omega
    refine ⟨[], intervalsLoopF_stop endD iv 0 ps h, by simp, ?_, ?_⟩
    · intro d _ _ hlt
      exact absurd hlt h
    · intro hlt
      exact absurd hlt h
  | succ f ih =>
    intro ps hle
    by_cases h : ps < endD
    · have hfe : endD - min (ps + iv) endD ≤ f := by omega
      obtain ⟨l2, hres, hbnd, hcov, _⟩ := ih (min (ps + iv) endD) hfe
      refine ⟨(ps, min (ps + iv) endD) :: l2, ?_, ?_, ?_, ?_⟩
      · rw [intervalsLoopF_succ endD iv f ps h, hres]
        rfl
      · intro p hp
        rcases List.mem_cons.mp hp with hp | hp
        · subst hp
          refine ⟨Nat.le_refl _, by omega, by omega, by omega⟩
        · have := hbnd p hp
          omega
      · intro d hd1 hd2 _
        by_cases hdc : d ≤ min (ps + iv) endD
        · exact ⟨(ps, min (ps + iv) endD), List.mem_cons_self _ _, hd1, hdc⟩
        · obtain ⟨p, hpl, hc1, hc2⟩ := hcov d (by omega) hd2 (by omega)
          exact ⟨p, List.mem_cons_of_mem _ hpl, hc1, hc2⟩
      · intro _
        simp
    · refine ⟨[], intervalsLoopF_stop endD iv (f + 1) ps h, by simp, ?_, ?_⟩
      · intro d _ _ hlt
        exact absurd hlt h
      · intro hlt
        exact absurd hlt h

/-- C3: for every window with `from <= to` and positive maximum span, the
Interval Partitioner succeeds with a non-empty ordered list of sub-windows,
each sub-window is a well-formed window at most the maximum span wide, a
day lies in `[from, to]` exactly when some sub-window contains it, and the
degenerate window `from == to` yields exactly the one sub-window
`(from, to)`. -/
theorem c3_intervals_partition (fromD toD iv : Nat) (hle : fromD ≤ toD)
    (hiv : 0 < iv) :
    ∃ l, intervals fromD toD iv = .ok l ∧ l ≠ [] ∧
      (∀ p ∈ l, p.1 ≤ p.2 ∧ p.2 - p.1 ≤ iv) ∧
      (∀ d : Nat, (fromD ≤ d ∧ d ≤ toD) ↔ ∃ p ∈ l, p.1 ≤ d ∧ d ≤ p.2) ∧
      (fromD = toD → l = [(fromD, toD)]) := by
  obtain ⟨l0, hres, hbnd, hcov, hne⟩ :=
    intervalsLoopF_spec toD iv hiv (toD - fromD) fromD (Nat.le_refl _)
  by_cases heq : fromD = toD
  · subst heq
    rw [intervalsLoopF_stop _ _ _ _ (by omega)] at hres
    refine ⟨[(fromD, fromD)], ?_, by simp, ?_, ?_, fun _ => rfl⟩
    · simp only [intervals]
      rw [if_neg (by omega), intervalsLoopF_stop _ _ _ _ (by omega)]
    · intro p hp
      rcases List.mem_singleton.mp hp with hp
      subst hp
      exact ⟨Nat.le_refl _, by omega⟩
    · intro d
      constructor
      · intro ⟨h1, h2⟩
        exact ⟨(fromD, fromD), List.mem_singleton.mpr rfl, h1, h2⟩
      · rintro ⟨p, hpl, hd1, hd2⟩
        rcases List.mem_singleton.mp hpl with hpl
        subst hpl
        omega
  · have hlt : fromD < toD := by omega
    have hne2 := hne hlt
    refine ⟨l0, ?_, hne2, ?_, ?_, fun he => absurd he heq⟩
    · simp only [intervals]
      rw [if_neg (by omega), hres]
      cases l0 with
      | nil => exact absurd rfl hne2
      | cons a t => rfl
    · intro p hp
      have := hbnd p hp
      exact ⟨by omega, by omega⟩
    · intro d
      constructor
      · intro ⟨h1, h2⟩
        exact hcov d h1 h2 hlt
      · rintro ⟨p, hpl, hd1, hd2⟩
        have := hbnd p hpl
        omega

/-- Witness for C3 at a concrete window of six days cut in steps of two. -/
theorem c3_witness :
    ∃ l, intervals 0 5 2 = .ok l ∧ l ≠ [] ∧
      (∀ p ∈ l, p.1 ≤ p.2 ∧ p.2 - p.1 ≤ 2) ∧
      (∀ d : Nat, (0 ≤ d ∧ d ≤ 5) ↔ ∃ p ∈ l, p.1 ≤ d ∧ d ≤ p.2) ∧
      ((0 : Nat) = 5 → l = [(0, 5)]) :=
  c3_intervals_partition 0 5 2 (by omega) (by omega)

/-- The pagination loop exits without fetching when the most recent batch
row count differs from the page size. -/
theorem walkLoop_stop (source : String) (ipp : Nat) (ind : Bool)
    (u : String) (resp : Resp) (length page : Nat) (pages : List Resp)
    (h : length ≠ ipp) :
    walkLoop source ipp ind u resp length page pages = .ok [] := by
  rw [walkLoop]
  simp [beq_iff_eq, h]

/-- One fetch of the page-number style loop for a non-product source: the
page counter advances, the fetched data rows become the appended batch. -/
theorem walkLoop_step_page (ipp page : Nat) (u : String)
    (resp newResp : Resp) (rest : List Resp) (rows : List Row)
    (hdata : getData newResp = .ok rows) :
    walkLoop "jobs" ipp false u resp ipp page (newResp :: rest) =
      match walkLoop "jobs" ipp false u newResp (mkDF rows).cells.length
          (page + 1) rest with
      | .error e => .error e
      | .ok l => .ok (⟨u ++ "&page=" ++ toString (page + 1), mkDF rows⟩ :: l) := by
  rw [walkLoop]
  simp [hdata]

/-- C4: a short page is the termination signal of the Walker: fed batches
of sizes `P, P, P, k` with `k < P` it performs exactly 4 fetches, and fed a
single batch of size `k < P` it performs exactly 1 fetch. -/
theorem c4_short_page_termination (P k : Nat) (hk : k < P) :
    (∃ w, getResponseCore "jobs" P "u" (mkPage P)
        [mkPage P, mkPage P, mkPage k] = .ok w ∧ fetchCount w = 4) ∧
    (∃ w, getResponseCore "jobs" P "u" (mkPage k) [] = .ok w ∧
      fetchCount w = 1) := by
  have hlen : ∀ n, (mkDF (rowsOfSize n)).cells.length = n := by
    intro n
    simp [mkDF, rowsOfSize]
  have hne : k ≠ P := Nat.ne_of_lt hk
  constructor
  · have hcore : getResponseCore "jobs" P "u" (mkPage P)
        [mkPage P, mkPage P, mkPage k] =
        match walkLoop "jobs" P false "u" (mkPage P)
            (mkDF (rowsOfSize P)).cells.length 1
            [mkPage P, mkPage P, mkPage k] with
        | .error e => .error e
        | .ok l => .ok ⟨mkDF (rowsOfSize P), l⟩ := rfl
    refine ⟨⟨mkDF (rowsOfSize P),
      [⟨"u" ++ "&page=" ++ toString 2, mkDF (rowsOfSize P)⟩,
       ⟨"u" ++ "&page=" ++ toString 3, mkDF (rowsOfSize P)⟩,
       ⟨"u" ++ "&page=" ++ toString 4, mkDF (rowsOfSize k)⟩]⟩, ?_, rfl⟩
    rw [hcore, hlen P, walkLoop_step_page P 1 "u" (mkPage P) (mkPage P)
      [mkPage P, mkPage k] (rowsOfSize P) rfl, hlen P,
      walkLoop_step_page P 2 "u" (mkPage P) (mkPage P) [mkPage k]
      (rowsOfSize P) rfl, hlen P,
      walkLoop_step_page P 3 "u" (mkPage P) (mkPage k) [] (rowsOfSize k) rfl,
      hlen k, walkLoop_stop "jobs" P false "u" (mkPage k) k 4 [] hne]
  · have hcore : getResponseCore "jobs" P "u" (mkPage k) [] =
        match walkLoop "jobs" P false "u" (mkPage k)
            (mkDF (rowsOfSize k)).cells.length 1 [] with
        | .error e => .error e
        | .ok l => .ok ⟨mkDF (rowsOfSize k), l⟩ := rfl
    refine ⟨⟨mkDF (rowsOfSize k), []⟩, ?_, rfl⟩
    rw [hcore, hlen k, walkLoop_stop "jobs" P false "u" (mkPage k) k 1 [] hne]

/-- Witness for C4 at page size 2 and short page size 1. -/
theorem c4_witness :
    (∃ w, getResponseCore "jobs" 2 "u" (mkPage 2)
        [mkPage 2, mkPage 2, mkPage 1] = .ok w ∧ fetchCount w = 4) ∧
    (∃ w, getResponseCore "jobs" 2 "u" (mkPage 1) [] = .ok w ∧
      fetchCount w = 1) :=
  c4_short_page_termination 2 1 (by omega)

/-- Every batch appended by the pagination loop is the page's decoded rows,
transposed exactly when the source is product. -/
theorem walkLoop_df_shape (source : String) (ipp : Nat) (ind : Bool)
    (u : String) :
    ∀ (pages : List Resp) (resp : Resp) (length page : Nat)
      (l : List PageFetch),
      walkLoop source ipp ind u resp length page pages = .ok l →
      ∀ pf ∈ l, ∃ rows, pf.df =
        if source = "product" then (mkDF rows).transpose else mkDF rows := by
  intro pages
  induction pages with
  | nil =>
    intro resp length page l h pf hpf
    rw [walkLoop] at h
    split at h
    · split at h
      · exact absurd h (by simp)
      · exact absurd h (by simp)
    · injection h with h2
      subst h2
      simp at hpf
  | cons q qs ih =>
    intro resp length page l h pf hpf
    rw [walkLoop] at h
    split at h
    · split at h
      · exact absurd h (by simp)
      · split at h
        · exact absurd h (by simp)
        · rename_i newResp rest hrows
          split at h
          · exact absurd h (by simp)
          · rename_i rows2 hl2
            injection hrows with e1 e2
            subst e1
            subst e2
            simp only [] at h
            split at h
            · exact absurd h (by simp)
            · rename_i l3 hl3
              injection h with h2
              subst h2
              rcases List.mem_cons.mp hpf with hpf | hpf
              · subst hpf
                exact ⟨rows2, rfl⟩
              · exact ih _ _ _ _ hl3 pf hpf
    · injection h with h2
      subst h2
      simp at hpf

/-- C2 as amended: for the product endpoint the first decoded batch is
taken as the Record Batch untransposed, and every batch fetched by the
loop after it is transposed; for any other source no loop batch is
transposed. -/
theorem c2_amended_transpose (ipp : Nat) (u : String) (r : Resp)
    (pages : List Resp) (w : WalkResult) :
    (getResponseCore "product" ipp u r pages = .ok w →
      ((∃ rows, getData r = .ok rows ∧ w.firstBatch = mkDF rows) ∨
        w.pageFetches = []) ∧
      ∀ pf ∈ w.pageFetches, ∃ rows, pf.df = (mkDF rows).transpose) ∧
    (∀ source, source ≠ "product" →
      getResponseCore source ipp u r pages = .ok w →
      ∀ pf ∈ w.pageFetches, ∃ rows, pf.df = mkDF rows) := by
  constructor
  · intro h
    rw [getResponseCore] at h
    split at h
    · exact absurd h (by simp)
    · rename_i keysList hkeys
      split at h
      · split at h
        · exact absurd h (by simp)
        · rename_i rows hrows
          simp only [] at h
          split at h
          · exact absurd h (by simp)
          · rename_i l hloop
            injection h with h2
            subst h2
            refine ⟨Or.inl ⟨rows, hrows, rfl⟩, ?_⟩
            intro pf hpf
            obtain ⟨rs, hrs⟩ :=
              walkLoop_df_shape "product" ipp _ u pages r _ 1 l hloop pf hpf
            rw [if_pos rfl] at hrs
            exact ⟨rs, hrs⟩
      · split at h
        · exact absurd h (by simp)
        · rename_i df hdf
          injection h with h2
          subst h2
          refine ⟨Or.inr rfl, ?_⟩
          intro pf hpf
          simp at hpf
  · intro source hsrc h
    rw [getResponseCore] at h
    split at h
    · exact absurd h (by simp)
    · rename_i keysList hkeys
      split at h
      · split at h
        · exact absurd h (by simp)
        · rename_i rows hrows
          simp only [] at h
          split at h
          · exact absurd h (by simp)
          · rename_i l hloop
            injection h with h2
            subst h2
            intro pf hpf
            obtain ⟨rs, hrs⟩ :=
              walkLoop_df_shape source ipp _ u pages r _ 1 l hloop pf hpf
            rw [if_neg hsrc] at hrs
            exact ⟨rs, hrs⟩
      · split at h
        · exact absurd h (by simp)
        · rename_i df hdf
          injection h with h2
          subst h2
          intro pf hpf
          simp at hpf

/-- Witness for C2 at a concrete two-page product run. -/
theorem c2_witness :
    ((∃ rows, getData (mkPage 2) = .ok rows ∧
        (⟨mkDF (rowsOfSize 2),
          [⟨"u" ++ "&page=" ++ toString 2, (mkDF (rowsOfSize 1)).transpose⟩]⟩ :
          WalkResult).firstBatch = mkDF rows) ∨
      (⟨mkDF (rowsOfSize 2),
        [⟨"u" ++ "&page=" ++ toString 2, (mkDF (rowsOfSize 1)).transpose⟩]⟩ :
        WalkResult).pageFetches = []) ∧
    ∀ pf ∈ (⟨mkDF (rowsOfSize 2),
        [⟨"u" ++ "&page=" ++ toString 2, (mkDF (rowsOfSize 1)).transpose⟩]⟩ :
        WalkResult).pageFetches,
      ∃ rows, pf.df = (mkDF rows).transpose :=
  (c2_amended_transpose 2 "u" (mkPage 2) [mkPage 1] _).1 (by rfl)

/-- Every URL issued by the pagination loop carries the token form fixed by
the cursor flag: a cursor token when the flag is set, a page number when it
is not. -/
theorem walkLoop_url_shape (source : String) (ipp : Nat) (ind : Bool)
    (u : String) :
    ∀ (pages : List Resp) (resp : Resp) (length page : Nat)
      (l : List PageFetch),
      walkLoop source ipp ind u resp length page pages = .ok l →
      ∀ pf ∈ l,
        (ind = true → ∃ t, pf.url = u ++ "&next=" ++ t) ∧
        (ind = false → ∃ n : Nat, pf.url = u ++ "&page=" ++ toString n) := by
  intro pages
  induction pages with
  | nil =>
    intro resp length page l h pf hpf
    rw [walkLoop] at h
    split at h
    · split at h
      · exact absurd h (by simp)
      · exact absurd h (by simp)
    · injection h with h2
      subst h2
      simp at hpf
  | cons q qs ih =>
    intro resp length page l h pf hpf
    rw [walkLoop] at h
    split at h
    · split at h
      · exact absurd h (by simp)
      · rename_i url page2 hurl
        split at h
        · exact absurd h (by simp)
        · rename_i newResp rest hrows
          split at h
          · exact absurd h (by simp)
          · rename_i rows2 hl2
            injection hrows with e1 e2
            subst e1
            subst e2
            simp only [] at h
            split at h
            · exact absurd h (by simp)
            · rename_i l3 hl3
              injection h with h2
              subst h2
              rcases List.mem_cons.mp hpf with hpf | hpf
              · subst hpf
                constructor
                · intro hT
                  rw [hT] at hurl
                  simp only [if_pos] at hurl
                  cases hnt : nextToken resp with
                  | error e =>
                    rw [hnt] at hurl
                    simp [Except.map] at hurl
                  | ok t =>
                    rw [hnt] at hurl
                    simp only [Except.map] at hurl
                    injection hurl with hurl2
                    exact ⟨t, congrArg Prod.fst hurl2.symm⟩
                · intro hF
                  rw [hF] at hurl
                  simp only [Bool.false_eq_true, if_false] at hurl
                  injection hurl with hurl2
                  exact ⟨page + 1, congrArg Prod.fst hurl2.symm⟩
              · exact ih _ _ _ _ hl3 pf hpf
    · injection h with h2
      subst h2
      simp at hpf

/-- C9: pagination-style classification is a function of the first
response's shape alone: it equals the presence of the `next` key among the
inspected keys, two first responses with the same inspected keys classify
identically (the embedding carries no state between calls), and in every
successful walk the loop URLs carry cursor tokens exactly when the
classification is cursor-style and page numbers exactly when it is not. -/
theorem c9_classification_stateless :
    (∀ r1 r2 : Resp, keysOf r1 = keysOf r2 →
      classifyCursor r1 = classifyCursor r2) ∧
    (∀ (r : Resp) (ks : List String), keysOf r = .ok ks →
      classifyCursor r = .ok (ks.contains "next")) ∧
    (∀ (source : String) (ipp : Nat) (u : String) (r : Resp)
      (pages : List Resp) (w : WalkResult),
      getResponseCore source ipp u r pages = .ok w →
      ∀ pf ∈ w.pageFetches,
        (classifyCursor r = .ok true → ∃ t, pf.url = u ++ "&next=" ++ t) ∧
        (classifyCursor r = .ok false →
          ∃ n : Nat, pf.url = u ++ "&page=" ++ toString n)) := by
  refine ⟨?_, ?_, ?_⟩
  · intro r1 r2 h
    simp [classifyCursor, h]
  · intro r ks h
    simp [classifyCursor, h, Except.map]
  · intro source ipp u r pages w h pf hpf
    rw [getResponseCore] at h
    split at h
    · exact absurd h (by simp)
    · rename_i keysList hkeys
      have hcl : classifyCursor r = .ok (keysList.contains "next") := by
        simp [classifyCursor, hkeys, Except.map]
      split at h
      · split at h
        · exact absurd h (by simp)
        · rename_i rows hrows
          simp only [] at h
          split at h
          · exact absurd h (by simp)
          · rename_i l hloop
            injection h with h2
            subst h2
            obtain ⟨hT, hF⟩ := walkLoop_url_shape source ipp
              (keysList.contains "next") u pages r _ 1 l hloop pf hpf
            constructor
            · intro hc
              rw [hcl] at hc
              injection hc with hc2
              exact hT hc2
            · intro hc
              rw [hcl] at hc
              injection hc with hc2
              exact hF hc2
      · split at h
        · exact absurd h (by simp)
        · rename_i df hdf
          injection h with h2
          subst h2
          simp at hpf

/-- Witness for C9 at a concrete cursor-style run. -/
theorem c9_witness :
    classifyCursor (Resp.dict
        [("data", .rows (rowsOfSize 1)), ("next", .value "T")]) =
      .ok ((["data", "next"] : List String).contains "next") ∧
    ∃ t, (⟨"u" ++ "&next=" ++ "T", mkDF ([] : List Row)⟩ : PageFetch).url =
      "u" ++ "&next=" ++ t :=
  ⟨c9_classification_stateless.2.1
      (Resp.dict [("data", .rows (rowsOfSize 1)), ("next", .value "T")])
      ["data", "next"] rfl,
   (c9_classification_stateless.2.2 "jobs" 1 "u"
      (Resp.dict [("data", .rows (rowsOfSize 1)), ("next", .value "T")])
      [Resp.dict [("data", .rows ([] : List Row))]]
      ⟨mkDF (rowsOfSize 1), [⟨"u" ++ "&next=" ++ "T", mkDF ([] : List Row)⟩]⟩
      (by rfl)
      ⟨"u" ++ "&next=" ++ "T", mkDF ([] : List Row)⟩
      (List.mem_cons_self _ _)).1 rfl⟩

/-- Occurrence count of a cell row in the output of the deduplication pass:
zero when it was already kept, once when it occurs at all, never more. -/
theorem dedupRowsAux_count (r : List Cell) :
    ∀ (l : List (String × List Cell)) (seen : List (List Cell)),
      List.count r ((dedupRowsAux seen l).map Prod.snd) =
        if r ∈ seen then 0 else if r ∈ l.map Prod.snd then 1 else 0 := by
  intro l
  induction l with
  | nil =>
    intro seen
    simp [dedupRowsAux]
  | cons p rest ih =>
    intro seen
    obtain ⟨i, x⟩ := p
    simp only [dedupRowsAux]
    by_cases hx : x ∈ seen
    · rw [if_pos hx, ih seen]
      by_cases hr : r ∈ seen
      · simp [hr]
      · have hneq : r ≠ x := fun e => hr (e ▸ hx)
        have hmc : (r ∈ x :: List.map Prod.snd rest) ↔
            r ∈ List.map Prod.snd rest := by
          simp [List.mem_cons, hneq]
        rw [if_neg hr, if_neg hr]
        simp only [List.map_cons]
        by_cases hm : r ∈ List.map Prod.snd rest
        · rw [if_pos hm, if_pos (List.mem_cons_of_mem x hm)]
        · rw [if_neg hm, if_neg (fun hc => hm (hmc.mp hc))]
    · rw [if_neg hx]
      simp only [List.map_cons, List.count_cons]
      rw [ih (x :: seen)]
      by_cases hr : r ∈ seen
      · have hneq : r ≠ x := fun e => hx (e ▸ hr)
        have hneq2 : ¬ x = r := fun e => hneq e.symm
        simp [hr, hneq, hneq2, List.mem_cons]
      · by_cases hrx : r = x
        · subst hrx
          simp [hr]
        · have hxr : ¬ x = r := fun e => hrx e.symm
          by_cases hm : r ∈ List.map Prod.snd rest
          · simp [hr, hrx, hxr, hm, List.mem_cons]
          · simp [hr, hrx, hxr, hm, List.mem_cons]

/-- Folding `pd.concat` over frames sharing one column list just stacks the
cell rows and keeps the columns. -/
theorem concatList_cells (c : List String) :
    ∀ (rest : List DF) (a : DF), a.cols = c → (∀ d ∈ rest, d.cols = c) →
      (rest.foldl DF.concatRows a).cells =
        a.cells ++ (rest.map DF.cells).flatten ∧
      (rest.foldl DF.concatRows a).cols = c := by
  intro rest
  induction rest with
  | nil =>
    intro a ha _
    simp [ha]
  | cons b bs ih =>
    intro a ha hall
    have hb : b.cols = c := hall b (List.mem_cons_self _ _)
    have hab : a.cols = b.cols := by rw [ha, hb]
    have h1 : (a.concatRows b).cols = c := by
      simp [DF.concatRows, hab, hb]
    have h2 : (a.concatRows b).cells = a.cells ++ b.cells := by
      simp [DF.concatRows, hab]
    obtain ⟨ih1, ih2⟩ := ih (a.concatRows b) h1
      (fun d hd => hall d (List.mem_cons_of_mem _ hd))
    refine ⟨?_, ih2⟩
    rw [List.foldl_cons, ih1, h2]
    simp [List.append_assoc]

/-- A positionally indexed frame is a member of the frame list. -/
theorem getD_mem_of_lt (l : List DF) (j : Nat) (hj : j < l.length) :
    l.getD j emptyDF ∈ l := by
  induction l generalizing j with
  | nil => simp at hj
  | cons a t ih =>
    cases j with
    | zero => simp [List.getD]
    | succ jj =>
      have hm := ih jj (by simpa using hj)
      simp only [List.getD_cons_succ]
      exact List.mem_cons_of_mem _ hm

/-- C5: concatenating per-window frames in partition order and dropping
exact duplicate rows leaves any row that occurs in two adjacent sub-window
frames (a shared boundary row) exactly once in the final frame. -/
theorem c5_dedup_boundary (dfs : List DF) (c : List String) (i : Nat)
    (r : List Cell) (hc : ∀ d ∈ dfs, d.cols = c) (hi : i + 1 < dfs.length)
    (h1 : r ∈ (dfs.getD i emptyDF).cells)
    (h2 : r ∈ (dfs.getD (i + 1) emptyDF).cells) :
    List.count r (totalLoadAggregate dfs).cells = 1 := by
  have hmemdf : dfs.getD (i + 1) emptyDF ∈ dfs := getD_mem_of_lt dfs (i + 1) hi
  rcases dfs with _ | ⟨d, rest⟩
  · simp at hi
  · have hd : d.cols = c := hc d (List.mem_cons_self _ _)
    have hrest : ∀ e ∈ rest, e.cols = c :=
      fun e he => hc e (List.mem_cons_of_mem _ he)
    obtain ⟨hcells, _⟩ := concatList_cells c rest d hd hrest
    have hgt : (d :: rest).length > 1 := by
      simp only [List.length_cons] at hi ⊢
      omega
    have hrin : r ∈ (concatList (d :: rest)).cells := by
      have hjoin : r ∈ ((d :: rest).map DF.cells).flatten :=
        List.mem_flatten.mpr ⟨((d :: rest).getD (i + 1) emptyDF).cells,
          List.mem_map_of_mem _ hmemdf, h2⟩
      rw [show concatList (d :: rest) = rest.foldl DF.concatRows d from rfl,
        hcells]
      simpa using hjoin
    have hagg : (totalLoadAggregate (d :: rest)).cells =
        (dedupRowsAux []
          (((List.range (concatList (d :: rest)).cells.length).map toString).zip
            (concatList (d :: rest)).cells)).map Prod.snd := by
      simp only [totalLoadAggregate, DF.dropDuplicates]
      rw [if_pos hgt]
      rfl
    rw [hagg, dedupRowsAux_count]
    rw [if_neg (List.not_mem_nil r), List.map_snd_zip _ _ (by simp),
      if_pos hrin]

/-- Witness for C5 on two one-column frames sharing a boundary row. -/
theorem c5_witness :
    List.count [Cell.s "1"]
      (totalLoadAggregate
        [⟨["a"], ["0"], [[Cell.s "1"]]⟩,
         ⟨["a"], ["0", "1"], [[Cell.s "1"], [Cell.s "2"]]⟩]).cells = 1 :=
  c5_dedup_boundary
    [⟨["a"], ["0"], [[Cell.s "1"]]⟩,
     ⟨["a"], ["0", "1"], [[Cell.s "1"], [Cell.s "2"]]⟩]
    ["a"] 0 [Cell.s "1"] (by decide) (by decide) (by decide) (by decide)

/-- A productive intervals-loop run starts its first window at the cursor. -/
theorem intervalsLoopF_head (endD iv fuel ps : Nat) (h : ps < endD)
    (l : List (Nat × Nat)) (hres : intervalsLoopF endD iv fuel ps = some l) :
    ∃ e t, l = (ps, e) :: t := by
  cases fuel with
  | zero =>
    rw [intervalsLoopF.eq_def] at hres
    simp [h] at hres
  | succ f =>
    rw [intervalsLoopF_succ endD iv f ps h] at hres
    cases hr2 : intervalsLoopF endD iv f (min (ps + iv) endD) with
    | none =>
      rw [hr2] at hres
      simp at hres
    | some l2 =>
      rw [hr2] at hres
      simp only [Option.map] at hres
      injection hres with h2
      exact ⟨min (ps + iv) endD, l2, h2.symm⟩

/-- For a valid window and positive step the partitioner succeeds and its
first sub-window starts at `from_date`. -/
theorem intervals_first_window (fromD toD iv : Nat) (hle : fromD ≤ toD)
    (hiv : 0 < iv) :
    ∃ e t, intervals fromD toD iv = .ok ((fromD, e) :: t) := by
  by_cases heq : fromD = toD
  · subst heq
    refine ⟨fromD, [], ?_⟩
    simp only [intervals]
    rw [if_neg (by omega), intervalsLoopF_stop _ _ _ _ (by omega)]
  · have hlt : fromD < toD := by omega
    obtain ⟨l0, hres, _, _, hne⟩ :=
      intervalsLoopF_spec toD iv hiv (toD - fromD) fromD (Nat.le_refl _)
    obtain ⟨e, t, hl⟩ :=
      intervalsLoopF_head toD iv (toD - fromD) fromD hlt l0 hres
    subst hl
    refine ⟨e, t, ?_⟩
    simp only [intervals]
    rw [if_neg (by omega), hres]

/-- Unfolding of the per-window loop on a first window. -/
theorem totalLoadWindows_cons (transport : String → Resp) (pages : List Resp)
    (credUrl source : String) (today ipp : Nat) (region : String)
    (s e : Nat) (rest : List (Nat × Nat)) :
    totalLoadWindows transport pages credUrl source today ipp region
        ((s, e) :: rest) =
      match getResponseRun transport pages credUrl source s (some e)
          today ipp region with
      | (.error err, log) => (.error err, log)
      | (.ok w, log) =>
          match totalLoadWindows transport pages credUrl source today ipp
              region rest with
          | (.error err, log2) => (.error err, log ++ log2)
          | (.ok dfs, log2) => (.ok (finalDF w :: dfs), log ++ log2) := rfl

/-- C7: whenever `from_date` is before the historical floor or `to_date`
is before `from_date`, the extraction fails with `ValidationError` and the
list of issued request URLs is empty: no network request happens before
validation passes. -/
theorem c7_validation_before_network (transport : String → Resp)
    (pages : List Resp) (credUrl source : String)
    (fromD toD today ipp : Nat) (region : String) (daysInterval : Nat)
    (hiv : 0 < daysInterval)
    (hbad : fromD < floorDate ∨ toD < fromD) :
    ∃ msg, totalLoadRun transport pages credUrl source fromD (some toD)
        today ipp region daysInterval =
      (.error (.validationError msg), []) := by
  by_cases hord : toD < fromD
  · refine ⟨"to_date cannot be earlier than from_date.", ?_⟩
    have hint : intervals fromD toD daysInterval =
        .error (.validationError "to_date cannot be earlier than from_date.") := by
      simp only [intervals]
      rw [if_pos hord]
    simp only [totalLoadRun, Option.getD_some]
    rw [hint]
  · have hle : fromD ≤ toD := by omega
    have hfl : fromD < floorDate := by
      rcases hbad with hbad | hbad
      · exact hbad
      · exact absurd hbad hord
    obtain ⟨e, t, hint⟩ :=
      intervals_first_window fromD toD daysInterval hle hiv
    cases hsv : (["jobs", "product", "company", "survey"] : List String).contains source with
    | false =>
      refine ⟨"The source has to be: jobs, product, company or survey", ?_⟩
      have hgr : getResponseRun transport pages credUrl source fromD (some e)
          today ipp region =
          (.error (.validationError
            "The source has to be: jobs, product, company or survey"), []) := by
        simp only [getResponseRun, hsv]
        rfl
      simp only [totalLoadRun, Option.getD_some, hint, totalLoadWindows_cons,
        hgr]
    | true =>
      refine ⟨"from_date cannot be earlier than 2022-03-22.", ?_⟩
      have hcc : checkConnection transport credUrl source fromD e ipp region
          none =
          (.error (.validationError
            "from_date cannot be earlier than 2022-03-22."), []) := by
        simp only [checkConnection]
        rw [if_pos hfl]
      have hgr : getResponseRun transport pages credUrl source fromD (some e)
          today ipp region =
          (.error (.validationError
            "from_date cannot be earlier than 2022-03-22."), []) := by
        simp only [getResponseRun, hsv, Bool.not_true, Option.getD_some]
        rw [hcc]
        rfl
      simp only [totalLoadRun, Option.getD_some, hint, totalLoadWindows_cons,
        hgr]

/-- Witness for C7 at a window entirely before the historical floor. -/
theorem c7_witness :
    ∃ msg, totalLoadRun (fun _ => Resp.scalar "") [] "u/" "jobs" 0 (some 0)
        5 10 "all" 1 = (.error (.validationError msg), []) :=
  c7_validation_before_network (fun _ => Resp.scalar "") [] "u/" "jobs" 0 0
    5 10 "all" 1 (by omega) (Or.inl (by simp [floorDate]))
